import Mathlib

/-!
Verification development for the `nzb` library: a parser, document model,
derived-metadata engine and metadata editor for NZB (Usenet index) documents.

The Python sources are embedded shallowly:

* strings are `String`/`List Char` (character classes are modelled on the
  ASCII range, which is the range the library's regexes are exercised on);
* `xmltodict`'s "dict or list or missing" shapes are explicit inductive types;
* exceptions (`InvalidNzbError`, `ZeroDivisionError`) are `Except`/`Option`;
* Python's stable `sorted`/`list.sort` is an insertion sort (any stable sort
  computes the same list);
* `natsort.natsorted`'s default key (split a string into alternating
  non-digit/digit runs, digit runs compared numerically) is `natkey` below.

Definitions are translated from `src/nzb/_parsers.py`, `_subparsers.py`,
`_utils.py`, `_models.py`, `_core.py` and `_types.py`.  The `File`/`Meta`
model consumed by `_parsers.py`/`_core.py` is not itself under `src/`
(only its older pydantic counterpart is), so the msgspec conversion step is
modelled from the spec where noted.
-/

/-! ### Character helpers (ASCII model of Python's character classes) -/

/-- ASCII decimal digit, the model of `\d` / `str.isdigit` on the ASCII range. -/
def isDig (c : Char) : Bool := '0' ≤ c && c ≤ '9'

/-- Numeric value of an ASCII digit. -/
def digVal (c : Char) : Nat := c.toNat - 48

/-- ASCII lower-casing, the model of `str.casefold` / `re.IGNORECASE`
on the ASCII range. -/
def asciiLower (c : Char) : Char :=
  if 'A' ≤ c && c ≤ 'Z' then Char.ofNat (c.toNat + 32) else c

/-- ASCII whitespace, the model of the whitespace `str.strip` removes. -/
def isPyWs (c : Char) : Bool :=
  c = ' ' || c = '\t' || c = '\n' || c = '\x0d' || c = '\x0b' || c = '\x0c'

/-- Lowercase hex digit, the character class `[a-f0-9]`. -/
def isHexLower (c : Char) : Bool := isDig c || ('a' ≤ c && c ≤ 'f')

/-- ASCII uppercase letter, modelling `str.isupper` per character. -/
def isUp (c : Char) : Bool := 'A' ≤ c && c ≤ 'Z'

/-- ASCII lowercase letter, modelling `str.islower` per character. -/
def isLow (c : Char) : Bool := 'a' ≤ c && c ≤ 'z'

/-- ASCII letter, digit or underscore: the regex class `\w` (ASCII model). -/
def isWordChar (c : Char) : Bool := isUp c || isLow c || isDig c || c = '_'

/-- ASCII alphanumeric: the regex class `[A-Za-z0-9]`. -/
def isAlnum (c : Char) : Bool := isUp c || isLow c || isDig c

/-! ### Python `int(...)` on strings

`int(s)` strips whitespace, then accepts an optional sign followed by a
non-empty digit string in which single underscores may separate digits. -/

/-- Digits-with-underscores tail: after a first digit, each further digit may
be preceded by one underscore.  Returns the accumulated value. -/
def pyDigitsTail (acc : Nat) : List Char → Option Nat
  | [] => some acc
  | '_' :: c :: rest =>
    if isDig c then pyDigitsTail (acc * 10 + digVal c) rest else none
  | '_' :: [] => none
  | c :: rest =>
    if isDig c then pyDigitsTail (acc * 10 + digVal c) rest else none

/-- Non-empty digit string with optional single underscores between digits. -/
def pyNatOfChars : List Char → Option Nat
  | [] => none
  | c :: rest => if isDig c then pyDigitsTail (digVal c) rest else none

/-- Strip Python whitespace from both ends of a character list. -/
def stripWs (cs : List Char) : List Char :=
  ((cs.dropWhile isPyWs).reverse.dropWhile isPyWs).reverse

/-- The model of Python's `int(s)` for `str` input. -/
def pyInt (s : String) : Option Int :=
  match stripWs s.data with
  | '+' :: rest => (pyNatOfChars rest).map Int.ofNat
  | '-' :: rest => (pyNatOfChars rest).map (fun n => -(n : Int))
  | rest => (pyNatOfChars rest).map Int.ofNat

/-- `str.strip()` on a string (Python whitespace, ASCII model). -/
def pyStrip (s : String) : String := String.mk (stripWs s.data)

/-! ### Comparison machinery

Python's `sorted`/`list.sort` are stable sorts; any stable sort computes
the same output, so they are embedded as an insertion sort `sortBy`. -/

/-- Three-way comparison on `Nat` written with explicit tests so that its
laws unfold cheaply. -/
def natCmp (m n : Nat) : Ordering :=
  if m < n then .lt else if m = n then .eq else .gt

/-- Character comparison by code point (Python's `<` on one-char strings). -/
def charCmp (a b : Char) : Ordering := natCmp a.toNat b.toNat

/-- Lexicographic comparison of lists under an element comparison. -/
def lexCmp (f : α → α → Ordering) : List α → List α → Ordering
  | [], [] => .eq
  | [], _ :: _ => .lt
  | _ :: _, [] => .gt
  | a :: as, b :: bs =>
    match f a b with
    | .lt => .lt
    | .gt => .gt
    | .eq => lexCmp f as bs

/-- Stable insertion of `x` into `l`: `x` goes in front of the first element
it compares `le` to, hence after earlier equal elements (stability). -/
def insortBy (le : α → α → Bool) (x : α) : List α → List α
  | [] => [x]
  | y :: ys => if le x y then x :: y :: ys else y :: insortBy le x ys

/-- Stable sort (the model of Python's stable `sorted`/`list.sort`). -/
def sortBy (le : α → α → Bool) (l : List α) : List α :=
  l.foldr (insortBy le) []

/-! ### The `natsort` default key

`natsorted` splits each string into alternating non-digit/digit runs,
compares digit runs numerically and other runs as plain strings; a string
starting with a digit run gets an empty leading string chunk. -/

/-- One chunk of a natural-sort key. -/
inductive NatChunk where
  | str (cs : List Char)
  | num (n : Nat)
deriving DecidableEq, Repr

/-- Group consecutive characters by digit-ness (value of `re.split(r"(\d+)")`
with empty pieces removed). -/
def digitRuns : List Char → List (Bool × List Char)
  | [] => []
  | c :: rest =>
    match digitRuns rest with
    | [] => [(isDig c, [c])]
    | (b, run) :: out =>
      if b = isDig c then (b, c :: run) :: out else (isDig c, [c]) :: (b, run) :: out

/-- Plain numeric value of a digit run (leading zeros allowed). -/
def digitsVal (cs : List Char) : Nat := cs.foldl (fun a c => a * 10 + digVal c) 0

/-- The natural-sort key: alternating chunks, starting with a (possibly
empty) string chunk. -/
def natkey (cs : List Char) : List NatChunk :=
  let chunks := (digitRuns cs).map fun bc =>
    if bc.1 then NatChunk.num (digitsVal bc.2) else NatChunk.str bc.2
  match chunks with
  | NatChunk.num n :: rest => NatChunk.str [] :: NatChunk.num n :: rest
  | other => other

/-- Chunk comparison: numeric chunks compare numerically, string chunks
lexicographically; the mixed cases (never reached between two aligned
natural-sort keys) order all numeric chunks first, keeping the comparison
a total preorder. -/
def chunkCmp : NatChunk → NatChunk → Ordering
  | .num m, .num n => natCmp m n
  | .num _, .str _ => .lt
  | .str _, .num _ => .gt
  | .str a, .str b => lexCmp charCmp a b

/-- Natural-sort comparison of two strings (as character lists). -/
def natCmpStr (a b : List Char) : Ordering := lexCmp chunkCmp (natkey a) (natkey b)

/-- `a` sorts no later than `b` under natural sort. -/
def natLe (a b : List Char) : Bool := natCmpStr a b ≠ .gt

/-- Natural-sort `le` on `String`s. -/
def natLeS (a b : String) : Bool := natLe a.data b.data

/-! ### The document model

`Segment`, `File`, `Meta`, `Nzb` as consumed and produced by
`src/src/nzb/_parsers.py` and `src/src/nzb/_core.py`.  Sizes and segment
numbers come out of Python's unbounded `int(...)`, so they are `Int`. -/

/-- One part segment of a file (`Segment`). -/
structure Segment where
  size : Int
  number : Int
  message_id : String
deriving DecidableEq, Repr

/-- A Python aware `datetime`: calendar fields plus a UTC offset in minutes
(`offsetMinutes = 0` is UTC).  Equality is field equality, which agrees with
Python's `==` on datetimes sharing one offset. -/
structure PyDateTime where
  year : Nat
  month : Nat
  day : Nat
  hour : Nat
  minute : Nat
  second : Nat
  microsecond : Nat
  offsetMinutes : Int
deriving DecidableEq, Repr

/-- Days in a month under the Gregorian leap rule. -/
def daysInMonth (y m : Nat) : Nat :=
  if m = 2 then
    if y % 4 = 0 && (y % 100 ≠ 0 || y % 400 = 0) then 29 else 28
  else if m = 4 || m = 6 || m = 9 || m = 11 then 30
  else 31

/-- The calendar ranges a Python `datetime` can hold (year 1–9999 etc.). -/
def PyDateTime.valid (dt : PyDateTime) : Prop :=
  1 ≤ dt.year ∧ dt.year ≤ 9999 ∧ 1 ≤ dt.month ∧ dt.month ≤ 12 ∧
    1 ≤ dt.day ∧ dt.day ≤ daysInMonth dt.year dt.month ∧
    dt.hour ≤ 23 ∧ dt.minute ≤ 59 ∧ dt.second ≤ 59 ∧ dt.microsecond < 1000000

instance (dt : PyDateTime) : Decidable dt.valid := by
  unfold PyDateTime.valid; infer_instance

/-- Unix epoch seconds to a UTC calendar datetime (the civil-from-days
algorithm); models `datetime` construction from a timestamp followed by the
`UTCDateTime` validator of `src/src/nzb/_types.py` (`astimezone(utc)`). -/
def epochToUTC (ts : Int) : PyDateTime :=
  let days : Int := Int.fdiv ts 86400
  let rem : Int := ts - 86400 * days
  let z : Int := days + 719468
  let era : Int := Int.fdiv z 146097
  let doe : Nat := (z - era * 146097).toNat
  let yoe : Nat := (doe - doe / 1460 + doe / 36524 - doe / 146096) / 365
  let doy : Nat := doe - (365 * yoe + yoe / 4 - yoe / 100)
  let mp : Nat := (5 * doy + 2) / 153
  let d : Nat := doy - (153 * mp + 2) / 5 + 1
  let m : Nat := if mp < 10 then mp + 3 else mp - 9
  let y : Int := (yoe : Int) + era * 400 + (if m ≤ 2 then 1 else 0)
  { year := y.toNat, month := m, day := d,
    hour := (rem / 3600).toNat, minute := ((rem / 60) % 60).toNat,
    second := (rem % 60).toNat, microsecond := 0, offsetMinutes := 0 }

/-- A complete file in the document model (`File`). -/
structure File where
  poster : String
  posted_at : PyDateTime
  subject : String
  groups : List String
  segments : List Segment
deriving DecidableEq, Repr

/-- Creator-definable metadata (`Meta`). -/
structure Meta where
  title : Option String := none
  passwords : List String := []
  tags : List String := []
  category : Option String := none
deriving DecidableEq, Repr

/-- The top-level document model (`Nzb` of `src/src/nzb/_core.py`). -/
structure Nzb where
  meta : Meta := {}
  files : List File
deriving DecidableEq, Repr

/-- `File.size`: sum of the segment sizes
(`src/src/nzb/_models.py` lines 71–74). -/
def File.size (f : File) : Int := (f.segments.map Segment.size).sum

/-- `Nzb.size`: total size of all files (`src/src/nzb/_core.py` lines 212–215). -/
def Nzb.size (n : Nzb) : Int := (n.files.map File.size).sum

/-! ### The parse pipeline (`src/src/nzb/_parsers.py`)

`xmltodict` hands `parse_segments`/`parse_files` dictionaries whose
repeatable elements are a missing key, one dictionary, or a list of
dictionaries; the single-dictionary case is normalized to a one-element
list by the sources, so the embedding stores the normalized list. -/

/-- One `<segment>` entry as a dictionary: the optional attributes
`@bytes` and `@number` and the optional text content `#text`. -/
structure RawSegment where
  atBytes : Option String
  atNumber : Option String
  text : Option String
deriving DecidableEq, Repr

/-- The `segments` argument of `parse_segments`: absent/falsy, a dictionary
without a `segment` key, or the (normalized) list of segment entries. -/
inductive SegmentsField where
  | missing
  | noSegmentKey
  | segs (fields : List RawSegment)
deriving DecidableEq, Repr

/-- The error message raised for invalid/missing segments. -/
def segmentsErrMsg : String :=
  "Invalid or missing 'segments' element within the 'file' element. " ++
    "Each 'file' element must contain at least one valid 'segments' element."

/-- The error message raised for invalid/missing groups. -/
def groupsErrMsg : String :=
  "Invalid or missing 'groups' element within the 'file' element. " ++
    "Each 'file' element must contain at least one valid 'groups' element."

/-- The error message raised for invalid/missing file elements. -/
def fileErrMsg : String :=
  "Invalid or missing 'file' element in the NZB document. " ++
    "The NZB document must contain at least one valid 'file' element, " ++
    "and each 'file' must have at least one valid 'groups' and 'segments' element."

/-- The error message naming a bad required attribute of a `file` element
(the `except msgspec.ValidationError` branch of `parse_files`). -/
def attrErrMsg (attr : String) : String :=
  "Invalid or missing required attribute '" ++ attr ++ "' in a 'file' element."

/-- The `try` body of the segment loop in `parse_segments`: build a
`Segment` from one entry, `none` when a lookup or `int(...)` fails. -/
def parseSegmentField (f : RawSegment) : Option Segment :=
  match f.atBytes.bind pyInt, f.atNumber.bind pyInt, f.text with
  | some size, some number, some message_id => some { size, number, message_id }
  | _, _, _ => none

/-- `parse_segments` (`src/src/nzb/_parsers.py` lines 85–143): drop broken
entries, fail when nothing valid remains, sort by segment number. -/
def parse_segments : SegmentsField → Except String (List Segment)
  | .missing => .error segmentsErrMsg
  | .noSegmentKey => .error segmentsErrMsg
  | .segs fields =>
    let parsed := fields.filterMap parseSegmentField
    if parsed.isEmpty then .error segmentsErrMsg
    else .ok (sortBy (fun a b => decide (a.number ≤ b.number)) parsed)

/-- The `groups` lookup inside a `file` entry: absent/falsy, one string, or
a list of strings. -/
inductive GroupsField where
  | missing
  | one (g : String)
  | many (gs : List String)
deriving DecidableEq, Repr

/-- One `<file>` entry as a dictionary: the optional attributes `@poster`,
`@date`, `@subject` and the nested `groups`/`segments` lookups. -/
structure RawFile where
  poster : Option String
  date : Option String
  subject : Option String
  groups : GroupsField
  segments : SegmentsField
deriving DecidableEq, Repr

/-- The `grouplist` built from the `groups` lookup, `none` when the parse
must abort with the groups error. -/
def groupList : GroupsField → Option (List String)
  | .missing => none
  | .one g => some [g]
  | .many gs => some gs

/-- Modelled from the spec: the `msgspec.convert(..., type=File, strict=False)`
step of `parse_files`.  The `File` model it validates against is not under
`src/` (only its older pydantic counterpart is), so per spec §4.3 step 4 the
required attributes are checked as `poster`, then `date` (which must parse
as a Unix-timestamp integer and is converted to UTC), then `subject`; the
error message naming the failing attribute is the one built by the
`except msgspec.ValidationError` branch in `src/src/nzb/_parsers.py`. -/
def convertFile (poster date subject : Option String) (groups : List String)
    (segments : List Segment) : Except String File :=
  match poster with
  | none => .error (attrErrMsg "poster")
  | some p =>
    match date with
    | none => .error (attrErrMsg "date")
    | some ds =>
      match pyInt ds with
      | none => .error (attrErrMsg "date")
      | some ts =>
        match subject with
        | none => .error (attrErrMsg "subject")
        | some sub =>
          .ok { poster := p, posted_at := epochToUTC ts, subject := sub,
                groups := groups, segments := segments }

/-- The body of the `for file in files` loop of `parse_files`: groups check,
segment parsing, then the msgspec conversion, with the source's error order. -/
def parseOneFile (f : RawFile) : Except String File :=
  match groupList f.groups with
  | none => .error groupsErrMsg
  | some grouplist => do
    let segs ← parse_segments f.segments
    convertFile f.poster f.date f.subject (sortBy natLeS grouplist) segs

/-- The whole `for` loop: first error aborts, otherwise collect in order. -/
def convertAll : List RawFile → Except String (List File)
  | [] => .ok []
  | f :: fs => do
    let x ← parseOneFile f
    let xs ← convertAll fs
    .ok (x :: xs)

/-- `parse_files` (`src/src/nzb/_parsers.py` lines 146–248): the argument is
the normalized `file` lookup (`none` when absent). -/
def parse_files (files : Option (List RawFile)) : Except String (List File) :=
  match files with
  | none => .error fileErrMsg
  | some fs => do
    let filelist ← convertAll fs
    if filelist.isEmpty then .error fileErrMsg
    else .ok (sortBy (fun a b => natLeS a.subject b.subject) filelist)

/-! ### Text classifiers (`src/src/nzb/_subparsers.py`) -/

/-- `pre` is a literal prefix of `cs`. -/
def isPre : List Char → List Char → Bool
  | [], _ => true
  | _ :: _, [] => false
  | p :: ps, c :: cs => p = c && isPre ps cs

/-- `suf` is a literal suffix of `cs`. -/
def isSuf (suf cs : List Char) : Bool := isPre suf.reverse cs.reverse

/-- `re.search` of a pattern that only matches at the very end: try the
whole-suffix test at every start position. -/
def anySuffix (p : List Char → Bool) : List Char → Bool
  | [] => p []
  | c :: rest => p (c :: rest) || anySuffix p rest

/-- One alternative of the rar regex consuming the whole rest of the
string: the literal `.rar`, or `.` then one of `rstuv` then two digits
(case folded via `re.IGNORECASE`). -/
def rarAlt : List Char → Bool
  | ['.', c1, c2, c3] =>
    (asciiLower c1 = 'r' && asciiLower c2 = 'a' && asciiLower c3 = 'r') ||
      ((asciiLower c1 = 'r' || asciiLower c1 = 's' || asciiLower c1 = 't' ||
          asciiLower c1 = 'u' || asciiLower c1 = 'v') && isDig c2 && isDig c3)
  | _ => false

/-- `name_is_rar` (`src/src/nzb/_subparsers.py` lines 68–90): the search for
`(\.rar|\.r\d\d|\.s\d\d|\.t\d\d|\.u\d\d|\.v\d\d)$` with `re.IGNORECASE`. -/
def name_is_rar (filename : String) : Bool :=
  if filename = "" then false else anySuffix rarAlt filename.data

/-- `name_is_par2` (`src/src/nzb/_subparsers.py` lines 49–65):
`filename.casefold().endswith(".par2")`. -/
def name_is_par2 (filename : String) : Bool :=
  if filename = "" then false
  else isSuf ['.', 'p', 'a', 'r', '2'] (filename.data.map asciiLower)

/-- `re.search(r"[a-f0-9]{30}", stem)`: some window of 30 consecutive
characters is all lowercase hex. -/
def hasHexRun : List Char → Bool
  | [] => false
  | c :: rest =>
    (((c :: rest).take 30).length = 30 && ((c :: rest).take 30).all isHexLower) ||
      hasHexRun rest

/-- `len(re.findall(r"\[\w+\]", stem))`: the scan counting non-overlapping
occurrences of a bracketed word run, restarting one character later after a
failed `[`. -/
def countBrackets : List Char → Nat
  | [] => 0
  | c :: rest =>
    if c = '[' then
      let run := rest.takeWhile isWordChar
      match h : rest.drop run.length with
      | ']' :: after =>
        if run.isEmpty then countBrackets rest else 1 + countBrackets after
      | _ => countBrackets rest
    else countBrackets rest
termination_by cs => cs.length
decreasing_by
  all_goals simp_wf
  all_goals
    have hlen : (rest.drop (rest.takeWhile isWordChar).length).length =
        rest.length - (rest.takeWhile isWordChar).length := by
      simp [List.length_drop]
    rw [h] at hlen
    simp at hlen
    omega

/-- `stem_is_obfuscated` (`src/src/nzb/_subparsers.py` lines 118–187): the
layered SABnzbd heuristic.  The float test `upperchars / lowerchars <= 0.25`
is the exact rational test `4 * upperchars <= lowerchars` (both operands are
small integers, so double rounding cannot cross the decision boundary). -/
def stem_is_obfuscated (filestem : String) : Bool :=
  match filestem.data with
  | [] => true
  | c0 :: rest =>
    let cs := c0 :: rest
    if cs.length = 32 && cs.all isHexLower then true
    else if 40 ≤ cs.length && cs.all (fun c => isHexLower c || c = '.') then true
    else if hasHexRun cs && 2 ≤ countBrackets cs then true
    else if isPre ['a', 'b', 'c', '.', 'x', 'y', 'z'] cs then true
    else
      let decimals := cs.countP isDig
      let upperchars := cs.countP isUp
      let lowerchars := cs.countP isLow
      let spacesdots := cs.countP (fun c => c = ' ' || c = '.' || c = '_')
      if 2 ≤ upperchars && 2 ≤ lowerchars && 1 ≤ spacesdots then false
      else if 3 ≤ spacesdots then false
      else if 4 ≤ upperchars + lowerchars && 4 ≤ decimals && 1 ≤ spacesdots then false
      else if isUp c0 && 2 < lowerchars && 4 * upperchars ≤ lowerchars then false
      else true

/-! ### The subject parser (`src/src/nzb/_subparsers.py` lines 6–46)

`extract_filename_from_subject` tries three regexes in order.  Each is
translated into an explicit matcher below; the translation notes spell out
how each regex's leftmost/greedy semantics reduce to the code given. -/

/-- Case 1, `re.search(r'"(.*)"', subject)`: the leftmost match starts at
the first `"`; the greedy `.*` then runs to the last `"` of the string, so
the group is everything strictly between the first and the last quote
(`none` when there are fewer than two quotes). -/
def quotedCase (cs : List Char) : Option (List Char) :=
  match cs.dropWhile (· ≠ '"') with
  | [] => none
  | _ :: afterFirst =>
    match afterFirst.reverse.dropWhile (· ≠ '"') with
    | [] => none
    | _ :: revMid => some revMid.reverse

/-- Consume one or more digits (a maximal run: the regexes follow each
`\d+` with a non-digit, so the greedy run cannot give anything back). -/
def dropDigits1 : List Char → Option (List Char)
  | c :: rest => if isDig c then some (rest.dropWhile isDig) else none
  | [] => none

/-- Consume the anchored lead `^(?:\[|\()(?:\d+/\d+)(?:\]|\))\s-\s` of the
strict posting pattern, returning the remainder. -/
def strictLead (cs : List Char) : Option (List Char) :=
  match cs with
  | b :: rest =>
    if b = '[' || b = '(' then
      (dropDigits1 rest).bind fun r1 =>
        match r1 with
        | '/' :: r2 =>
          (dropDigits1 r2).bind fun r3 =>
            match r3 with
            | cb :: w1 :: '-' :: w2 :: r5 =>
              if (cb = ']' || cb = ')') && isPyWs w1 && isPyWs w2 then some r5
              else none
            | _ => none
        | _ => none
    else none
  | [] => none

/-- Consume the reversed end-anchored tail `\syEnc\s(?:\[|\()(?:\d+/\d+)
(?:\]|\))\s\d+` from the reversed remainder.  Anchored at the end of the
string by `fullmatch`, each piece is forced (a digit run next to a
non-digit cannot give characters back), so the tail's position is unique
and the greedy `(.*)` group is everything before it. -/
def strictTailRev (csRev : List Char) : Option (List Char) :=
  (dropDigits1 csRev).bind fun r1 =>
    match r1 with
    | w :: cb :: r3 =>
      if isPyWs w && (cb = ']' || cb = ')') then
        (dropDigits1 r3).bind fun r4 =>
          match r4 with
          | '/' :: r5 =>
            (dropDigits1 r5).bind fun r6 =>
              match r6 with
              | ob :: w2 :: 'c' :: 'n' :: 'E' :: 'y' :: w3 :: r8 =>
                if (ob = '[' || ob = '(') && isPyWs w2 && isPyWs w3 then some r8
                else none
              | _ => none
          | _ => none
      else none
    | _ => none

/-- Case 2, `re.fullmatch` of the strict posting pattern: lead from the
left, tail from the right, the group is the middle (which `.`-dot cannot
let contain a newline). -/
def strictCase (cs : List Char) : Option (List Char) :=
  (strictLead cs).bind fun afterLead =>
    (strictTailRev afterLead.reverse).bind fun midRev =>
      let mid := midRev.reverse
      if mid.all (· ≠ '\n') then some mid else none

/-- The character class `[\w\-+()' .,]` of the loose filename pattern. -/
def isLooseA (c : Char) : Bool :=
  isWordChar c || c = '-' || c = '+' || c = '(' || c = ')' ||
    c = '\'' || c = ' ' || c = '.' || c = ','

/-- The character class inside the bracketed group: the loose class plus
a forward slash. -/
def isLooseB (c : Char) : Bool := isLooseA c || c = '/'

/-- The trailing `\.[A-Za-z0-9]{2,4}\b` starting after the dot: the greedy
`{2,4}` plus the trailing word boundary force the extension to be the whole
alphanumeric run at this position, of length 2–4, followed by the string's
end or a non-word character.  Returns `(extension, remainder)`. -/
def extMatch (cs : List Char) : Option (List Char × List Char) :=
  let run := cs.takeWhile isAlnum
  if 2 ≤ run.length && run.length ≤ 4 then
    match cs.drop run.length with
    | [] => some (run, [])
    | c :: rest => if isWordChar c then none else some (run, c :: rest)
  else none

/-- Backtracking over how much of an `A`-run the quantifier keeps: the
greedy engine prefers the longest kept prefix, so try each split point `k`
(the kept length) from `run.length - 1` down to `minKeep`; at a kept
length `k` the next pattern piece `\.` must find `.` at `run[k]`, and the
extension follows.  Returns `(consumed-from-run-on, remainder)`. -/
def dotSplit (run rest : List Char) (minKeep : Nat) : Option (List Char × List Char) :=
  (List.range run.length).reverse.findSome? fun k =>
    if minKeep ≤ k && run.get? k = some '.' then
      (extMatch (run.drop (k + 1) ++ rest)).map fun er =>
        (run.take k ++ '.' :: er.1, er.2)
    else none

/-- The continuation `(?:\[ B* \] A*)*\.[A-Za-z0-9]{2,4}\b` (with `A` the
loose class and `B` the bracketed-group class)
after a maximal `A`-run `run` (with `rest` following, whose head
is not an `A`-character).  The greedy star first tries another bracketed
iteration (only possible at `[`, which is not an `A`-character, hence only
with the whole run kept); when that sub-tree fails the quantifier backs
off through `dotSplit`.  `minKeep` is 1 for the leading `A+`, 0 for an
iteration's trailing `A*`. -/
def loosePart (run rest : List Char) (minKeep : Nat) : Option (List Char × List Char) :=
  (match rest with
    | '[' :: afterBr =>
      let brun := afterBr.takeWhile isLooseB
      match h : afterBr.drop brun.length with
      | ']' :: r2 =>
        let run2 := r2.takeWhile isLooseA
        (loosePart run2 (r2.drop run2.length) 0).map
          fun cr : List Char × List Char =>
            (run ++ '[' :: brun ++ ']' :: cr.1, cr.2)
      | _ => none
    | _ => none).orElse fun _ => dotSplit run rest minKeep
termination_by run.length + rest.length
decreasing_by
  simp_wf
  have h2 : (afterBr.drop (afterBr.takeWhile isLooseB).length).length =
      afterBr.length - (afterBr.takeWhile isLooseB).length := by
    simp [List.length_drop]
  rw [h] at h2
  have h4 := congrArg List.length
    (List.takeWhile_append_dropWhile (p := isLooseA) (l := r2))
  rw [List.length_append] at h4
  have hr : (r2.drop (r2.takeWhile isLooseA).length).length =
      r2.length - (r2.takeWhile isLooseA).length := by
    simp [List.length_drop]
  simp at h2
  omega

/-- The word-boundary `\b` between the previous character (if any) and the
first matched character. -/
def boundaryOk (prev : Option Char) (cur : Char) : Bool :=
  match prev with
  | none => isWordChar cur
  | some p => isWordChar p != isWordChar cur

/-- Case 3, `re.search` of the loose pattern: try every start position from
the left; at a position the leading `\b` must hold and the `A+` run begins
(maximal, `loosePart` backs it off as needed). -/
def looseSearch (prev : Option Char) : List Char → Option (List Char)
  | [] => none
  | c :: cs =>
    (if boundaryOk prev c && isLooseA c then
      let run := (c :: cs).takeWhile isLooseA
      (loosePart run ((c :: cs).drop run.length) 1).map Prod.fst
    else none).orElse fun _ => looseSearch (some c) cs
termination_by cs => cs.length

/-- Case 3 entry point. -/
def looseCase (cs : List Char) : Option (List Char) := looseSearch none cs

/-- The group post-processing both cases share: strip, and an empty
stripped group returns `None` (without falling through to later cases). -/
def stripOrNone (g : List Char) : Option String :=
  let f := pyStrip (String.mk g)
  if f = "" then none else some f

/-- `extract_filename_from_subject` (`src/src/nzb/_subparsers.py` lines
6–46): the ordered cascade of the three matchers. -/
def extract_filename_from_subject (subject : String) : Option String :=
  match quotedCase subject.data with
  | some g => stripOrNone g
  | none =>
    match strictCase subject.data with
    | some g => stripOrNone g
    | none =>
      match looseCase subject.data with
      | some g => stripOrNone g
      | none => none

/-! ### Derived document properties (`src/src/nzb/_core.py`, `_models.py`) -/

/-- `File.name`: the filename extracted from the subject (`None` on
failure); the extraction itself is `extract_filename_from_subject`. -/
def File.name (f : File) : Option String := extract_filename_from_subject f.subject

/-- `File.is_par2`: `.par2` check of the extracted name, `False` when no
name could be extracted (`src/src/nzb/_models.py` lines 120–129 / the
`name_is_par2` classifier). -/
def File.is_par2 (f : File) : Bool :=
  match f.name with
  | none => false
  | some n => name_is_par2 n

/-- Lexicographic string `le` (Python's `<` on `str`). -/
def lexLeS (a b : String) : Bool := lexCmp charCmp a.data b.data ≠ .gt

/-- `Nzb.par2_files`: the par2 files sorted by subject
(`src/src/nzb/_core.py` lines 244–249). -/
def Nzb.par2_files (n : Nzb) : List File :=
  sortBy (fun a b => lexLeS a.subject b.subject) (n.files.filter File.is_par2)

/-- `Nzb.par2_size`: total size of the par2 files
(`src/src/nzb/_core.py` lines 251–256). -/
def Nzb.par2_size (n : Nzb) : Int := (n.par2_files.map File.size).sum

/-- `Nzb.par2_percentage` (`src/src/nzb/_core.py` lines 258–263):
`(par2_size / size) * 100` with Python `/`, which raises
`ZeroDivisionError` when `size == 0`; the float value is modelled as the
exact rational (the claim concerns raise-versus-return and the quotient). -/
def Nzb.par2_percentage (n : Nzb) : Except String Rat :=
  if n.size = 0 then .error "ZeroDivisionError: division by zero"
  else .ok ((n.par2_size : Rat) / (n.size : Rat) * 100)

/-! ### The JSON bridge (`src/src/nzb/_core.py` lines 126–201)

`json.dumps`/`json.loads` of well-formed data are faithful, so the JSON
text is modelled as the typed tree `JNzb`; the one non-trivial leaf is the
`posted_at` field, a string produced by `strftime("%Y-%m-%dT%H:%M:%SZ")`
and read back by `strptime(..., "%Y-%m-%dT%H:%M:%S%z")`. -/

/-- JSON shape of `Meta` under `dataclasses.asdict`. -/
structure JMeta where
  title : Option String
  passwords : List String
  tags : List String
  category : Option String
deriving DecidableEq, Repr

/-- JSON shape of `Segment`. -/
structure JSegment where
  size : Int
  number : Int
  message_id : String
deriving DecidableEq, Repr

/-- JSON shape of `File`; `posted_at` is the formatted datetime string. -/
structure JFile where
  poster : String
  posted_at : String
  subject : String
  groups : List String
  segments : List JSegment
deriving DecidableEq, Repr

/-- JSON shape of `Nzb`. -/
structure JNzb where
  meta : JMeta
  files : List JFile
deriving DecidableEq, Repr

/-- Little-endian decimal digits of `n` (empty for 0). -/
def natDigits (n : Nat) : List Nat :=
  if h : n = 0 then [] else n % 10 :: natDigits (n / 10)
decreasing_by exact Nat.div_lt_self (Nat.pos_of_ne_zero h) (by omega)

/-- Zero-padded `k`-wide decimal rendering of `n` (the `%Y`/`%m`/... fields
of `strftime`). -/
def padNat (k n : Nat) : List Char :=
  List.replicate (k - (natDigits n).length) '0' ++
    (natDigits n).reverse.map fun d => Char.ofNat (48 + d)

/-- `datetime.strftime("%Y-%m-%dT%H:%M:%SZ")`: renders the calendar fields,
dropping microseconds (`%S` has no sub-second part) and printing the
literal `Z`. -/
def formatDT (dt : PyDateTime) : String :=
  String.mk (padNat 4 dt.year ++ '-' :: (padNat 2 dt.month ++ '-' ::
    (padNat 2 dt.day ++ 'T' :: (padNat 2 dt.hour ++ ':' ::
      (padNat 2 dt.minute ++ ':' :: (padNat 2 dt.second ++ ['Z']))))))

/-- Read up to `maxLen` leading digits (the greedy numeric fields of
`strptime`); fails on zero digits. -/
def readNum (maxLen : Nat) (cs : List Char) : Option (Nat × List Char) :=
  let run := (cs.takeWhile isDig).take maxLen
  if run.isEmpty then none else some (digitsVal run, cs.drop run.length)

/-- Expect one literal character. -/
def expectC (c : Char) : List Char → Option (List Char)
  | x :: r => if x = c then some r else none
  | [] => none

/-- `datetime.strptime(s, "%Y-%m-%dT%H:%M:%S%z")` restricted to the
alphabet the paired serializer emits (`%z` read as the literal `Z`,
giving UTC), including the calendar validation `datetime` itself performs;
the parsed value has microsecond 0. -/
def parseDT (s : String) : Option PyDateTime := do
  let (y, r1) ← readNum 4 s.data
  let r2 ← expectC '-' r1
  let (mo, r3) ← readNum 2 r2
  let r4 ← expectC '-' r3
  let (d, r5) ← readNum 2 r4
  let r6 ← expectC 'T' r5
  let (h, r7) ← readNum 2 r6
  let r8 ← expectC ':' r7
  let (mi, r9) ← readNum 2 r8
  let r10 ← expectC ':' r9
  let (sec, r11) ← readNum 2 r10
  let r12 ← expectC 'Z' r11
  if r12 = [] ∧ 1 ≤ y ∧ y ≤ 9999 ∧ 1 ≤ mo ∧ mo ≤ 12 ∧ 1 ≤ d ∧
      d ≤ daysInMonth y mo ∧ h ≤ 23 ∧ mi ≤ 59 ∧ sec ≤ 59 then
    some { year := y, month := mo, day := d, hour := h, minute := mi,
           second := sec, microsecond := 0, offsetMinutes := 0 }
  else none

/-- `Nzb.to_json` (`src/src/nzb/_core.py` lines 178–201):
`dataclasses.asdict` plus the datetime `default` serializer. -/
def Nzb.to_json (n : Nzb) : JNzb :=
  { meta := { title := n.meta.title, passwords := n.meta.passwords,
              tags := n.meta.tags, category := n.meta.category },
    files := n.files.map fun f =>
      { poster := f.poster, posted_at := formatDT f.posted_at,
        subject := f.subject, groups := f.groups,
        segments := f.segments.map fun s =>
          { size := s.size, number := s.number, message_id := s.message_id } } }

/-- The error message of `Nzb.from_json` for malformed data. -/
def jsonErrMsg : String :=
  "The provided JSON data is not in the expected format or contains invalid values. " ++
    "This method only works with JSON produced by Nzb.to_json()."

/-- The file loop of `Nzb.from_json`: a failing `strptime` (`ValueError`)
aborts with the JSON format error. -/
def jFilesOf : List JFile → Except String (List File)
  | [] => .ok []
  | f :: fs =>
    match parseDT f.posted_at with
    | none => .error jsonErrMsg
    | some dt =>
      (jFilesOf fs).map fun rest =>
        { poster := f.poster, posted_at := dt, subject := f.subject,
          groups := f.groups,
          segments := f.segments.map fun s =>
            ({ size := s.size, number := s.number,
               message_id := s.message_id } : Segment) } :: rest

/-- `Nzb.from_json` (`src/src/nzb/_core.py` lines 126–176) on the typed
JSON tree. -/
def Nzb.from_json (j : JNzb) : Except String Nzb :=
  (jFilesOf j.files).map fun files =>
    { meta := { title := j.meta.title, passwords := j.meta.passwords,
                tags := j.meta.tags, category := j.meta.category },
      files := files }

/-! ### The metadata editor (`src/src/nzb/_core.py` lines 312–599)

The editor works on the `ElementTree` of the document: a root `nzb`
element whose children are `head` elements (holding `meta` children and
possibly others) and non-`head` elements (the `file`s).  Only the shape
the editor touches is modelled; a non-`head`/non-`meta` element is kept
as an opaque tag. -/

/-- A `<meta>` element: its optional `type` attribute and text. -/
structure MetaElem where
  typ : Option String
  text : Option String
deriving DecidableEq, Repr

/-- A child of `<head>`. -/
inductive HeadChild where
  | metaE (m : MetaElem)
  | otherE (tag : String)
deriving DecidableEq, Repr

/-- A child of the root `<nzb>` element. -/
inductive RootChild where
  | headE (children : List HeadChild)
  | otherE (tag : String)
deriving DecidableEq, Repr

/-- The editor's tree: the root's children. -/
structure XTree where
  children : List RootChild
deriving DecidableEq, Repr

/-- `head.findall("./meta")`: the meta children in order. -/
def metasOf : List HeadChild → List MetaElem
  | [] => []
  | .metaE m :: rest => m :: metasOf rest
  | .otherE _ :: rest => metasOf rest

/-- The sort key of `NzbMetaEditor.sort` (`src/src/nzb/_core.py` lines
416–421): a truthy `type` maps through the hierarchy dictionary with
default `-1`; a missing or empty `type` gives `-1`. -/
def hierKey (m : MetaElem) : Int :=
  match m.typ with
  | none => -1
  | some t =>
    if t = "" then -1
    else if t = "title" then 0
    else if t = "category" then 1
    else if t = "password" then 2
    else if t = "tag" then 3
    else -1

/-- `head[:] = sorted(head.findall("./meta"), key=key)`: the head's
children are replaced by its meta children, stably sorted by `hierKey`
(non-meta children are dropped by this assignment). -/
def sortHead (children : List HeadChild) : List HeadChild :=
  (sortBy (fun a b => decide (hierKey a ≤ hierKey b)) (metasOf children)).map .metaE

/-- Is some child a `head`? -/
def hasHead : List RootChild → Bool
  | [] => false
  | .headE _ :: _ => true
  | .otherE _ :: rest => hasHead rest

/-- Apply `f` to the first `head` child (`self._tree.find("./head")`). -/
def mapFirstHead (f : List HeadChild → List HeadChild) : List RootChild → List RootChild
  | [] => []
  | .headE cs :: rest => .headE (f cs) :: rest
  | .otherE t :: rest => .otherE t :: mapFirstHead f rest

/-- The first `head`'s children, if any. -/
def firstHead : List RootChild → Option (List HeadChild)
  | [] => none
  | .headE cs :: _ => some cs
  | .otherE _ :: rest => firstHead rest

/-- `NzbMetaEditor.sort()` with the default key (`src/src/nzb/_core.py`
lines 385–428): re-orders (and prunes to) the first head's meta children;
no head, no change. -/
def editorSort (t : XTree) : XTree :=
  { children := mapFirstHead sortHead t.children }

/-- `NzbMetaEditor.remove(key)` (`src/src/nzb/_core.py` lines 542–565):
drop every meta child of the first head whose `type` equals `key`
exactly. -/
def editorRemove (key : String) (t : XTree) : XTree :=
  { children := mapFirstHead
      (fun cs => cs.filter fun c =>
        match c with
        | .metaE m => !(m.typ = some key : Bool)
        | .otherE _ => true)
      t.children }

/-- The head materialization shared by `set`/`append`: insert an empty
`head` in front when the tree has none. -/
def ensureHead (t : XTree) : XTree :=
  if hasHead t.children then t else { children := .headE [] :: t.children }

/-- `ElementTree.SubElement(head, "meta")` with a `type` and text, repeated
for each value: appends fresh metas at the end of the first head. -/
def appendMetas (key : String) (vals : List String) (t : XTree) : XTree :=
  { children := mapFirstHead
      (fun cs => cs ++ vals.map fun v => .metaE { typ := some key, text := some v })
      t.children }

/-- `NzbMetaEditor.set` (`src/src/nzb/_core.py` lines 430–492).  Python
truthiness makes an empty string or empty sequence behave like an omitted
argument, so `title`/`category` are "provided" when non-empty strings and
`passwords`/`tags` when non-empty lists (`to_iterable` wraps a lone
string).  Each provided field is removed then re-inserted, and the method
ends with `self.sort()`. -/
def editorSet (title : String) (passwords : List String) (tags : List String)
    (category : String) (t : XTree) : XTree :=
  let t1 := ensureHead t
  let t2 := if title ≠ "" then appendMetas "title" [title] (editorRemove "title" t1) else t1
  let t3 := if passwords ≠ [] then
    appendMetas "password" passwords (editorRemove "password" t2) else t2
  let t4 := if tags ≠ [] then appendMetas "tag" tags (editorRemove "tag" t3) else t3
  let t5 := if category ≠ "" then
    appendMetas "category" [category] (editorRemove "category" t4) else t4
  editorSort t5

/-- Rendering of one meta element, abstracting `ElementTree.tostring`
(attribute then text, in document order; XML escaping is not modelled as
the texts used here contain no specials). -/
def serializeMeta (m : MetaElem) : String :=
  "<meta" ++ (match m.typ with | some t => " type=" ++ t | none => "") ++ ">" ++
    (match m.text with | some x => x | none => "") ++ "</meta>"

/-- Rendering of a head child. -/
def serializeHeadChild : HeadChild → String
  | .metaE m => serializeMeta m
  | .otherE t => "<" ++ t ++ "/>"

/-- Rendering of a root child. -/
def serializeRootChild : RootChild → String
  | .headE cs => "<head>" ++ String.join (cs.map serializeHeadChild) ++ "</head>"
  | .otherE t => "<" ++ t ++ "/>"

/-- Rendering of the whole tree (the body part of `to_str`; the prepended
`generate_header` output depends only on the original source text, which a
`set` call does not change). -/
def serializeTree (t : XTree) : String :=
  "<nzb>" ++ String.join (t.children.map serializeRootChild) ++ "</nzb>"

/-! ### Specification-side characterizations

Predicates phrased from the spec's words, used to state the claims about
the translated code (the code-side functions above). -/

/-- Well-formedness of the raw `file` entries as `xmltodict` produces them:
a list-valued `group` lookup is never empty (a list only arises from
repeated elements). -/
def groupsWF (fs : List RawFile) : Prop :=
  ∀ f ∈ fs, ∀ gs, f.groups = GroupsField.many gs → gs ≠ []

/-- Spec-side reading of the quoted heuristic: the first run enclosed in
double quotes, i.e. the text between the first quote and the quote that
follows it. -/
def firstQuotedRun (cs : List Char) : Option (List Char) :=
  match cs.dropWhile (· ≠ '"') with
  | [] => none
  | _ :: rest =>
    if rest.any (· = '"') then some (rest.takeWhile (· ≠ '"')) else none

/-- Spec-side: `cs` contains a run of 30 consecutive lowercase hex
characters. -/
def hexRun30 (cs : List Char) : Prop :=
  ∃ l m r, cs = l ++ m ++ r ∧ m.length = 30 ∧ ∀ c ∈ m, isHexLower c = true

/-- Spec-side: `cs` contains at least two bracketed tokens `[...]` (a
non-empty run of word characters between literal brackets). -/
def twoBracketTokens (cs : List Char) : Prop :=
  ∃ p1 w1 p2 w2 p3,
    cs = p1 ++ '[' :: (w1 ++ ']' :: (p2 ++ '[' :: (w2 ++ ']' :: p3))) ∧
      w1 ≠ [] ∧ (∀ c ∈ w1, isWordChar c = true) ∧
      w2 ≠ [] ∧ (∀ c ∈ w2, isWordChar c = true)

/-- Spec-side certainly-obfuscated patterns of the obfuscation claim. -/
def certainlyObfuscated (cs : List Char) : Prop :=
  (cs.length = 32 ∧ ∀ c ∈ cs, isHexLower c = true) ∨
    (40 ≤ cs.length ∧ ∀ c ∈ cs, isHexLower c = true ∨ c = '.') ∨
    (hexRun30 cs ∧ twoBracketTokens cs) ∨
    (∃ r, cs = 'a' :: 'b' :: 'c' :: '.' :: 'x' :: 'y' :: 'z' :: r)

/-- Spec-side certainly-not-obfuscated signals over character-class
counts. -/
def certainlyNotObfuscated (cs : List Char) : Prop :=
  let decimals := cs.countP isDig
  let upperchars := cs.countP isUp
  let lowerchars := cs.countP isLow
  let spacesdots := cs.countP fun c => c = ' ' || c = '.' || c = '_'
  (2 ≤ upperchars ∧ 2 ≤ lowerchars ∧ 1 ≤ spacesdots) ∨
    3 ≤ spacesdots ∨
    (4 ≤ upperchars + lowerchars ∧ 4 ≤ decimals ∧ 1 ≤ spacesdots) ∨
    (∃ c0 r, cs = c0 :: r ∧ isUp c0 = true ∧ 2 < lowerchars ∧
      4 * upperchars ≤ lowerchars)

/-- Natural-sort keys of the files' subjects are injective on the list
(no two distinct files of the list tie under natural sort). -/
def subjKeysInj (files : List File) : Prop :=
  ∀ a ∈ files, ∀ b ∈ files, natkey a.subject.data = natkey b.subject.data → a = b

/-! ### Concrete example values used by witnesses and counterexamples -/

/-- A one-file document whose only segment has size 0. -/
def exDocZero : Nzb :=
  { meta := {},
    files := [{ poster := "p", posted_at := epochToUTC 0, subject := "s",
                groups := ["g"],
                segments := [{ size := 0, number := 1, message_id := "m" }] }] }

/-- A document with one par2 file (25 bytes) and one other file (75 bytes). -/
def exDocPar2 : Nzb :=
  { meta := {},
    files := [{ poster := "p", posted_at := epochToUTC 0, subject := "\"a.par2\"",
                groups := ["g"],
                segments := [{ size := 25, number := 1, message_id := "m" }] },
              { poster := "p", posted_at := epochToUTC 0, subject := "\"b.mkv\"",
                groups := ["g"],
                segments := [{ size := 75, number := 1, message_id := "m" }] }] }

/-- A valid raw segment entry used by witnesses. -/
def exRawSeg : RawSegment := { atBytes := some "1", atNumber := some "1", text := some "m" }

/-- The segment `exRawSeg` parses to. -/
def exSeg : Segment := { size := 1, number := 1, message_id := "m" }

/-- A raw file entry with one valid group and one valid segment and the
given attributes. -/
def mkRawFile (p d sub : Option String) : RawFile :=
  { poster := p, date := d, subject := sub, groups := .one "g",
    segments := .segs [exRawSeg] }

/-- A raw file entry with the given subject and poster, date `1`, one
group and one valid segment. -/
def mkRawSubj (sub poster : String) : RawFile :=
  { poster := some poster, date := some "1", subject := some sub,
    groups := .one "g", segments := .segs [exRawSeg] }

/-- The file `mkRawSubj sub poster` parses to. -/
def mkFileS (sub poster : String) : File :=
  { poster := poster, posted_at := epochToUTC 1, subject := sub,
    groups := ["g"], segments := [exSeg] }

/-! ## Theorems

### Stable-sort lemmas -/

theorem mem_insortBy (le : α → α → Bool) (x : α) (l : List α) (z : α) :
    z ∈ insortBy le x l ↔ z = x ∨ z ∈ l := by
  induction l with
  | nil => simp [insortBy]
  | cons y ys ih =>
    by_cases h : le x y
    · simp [insortBy, h]
    · simp [insortBy, h, ih]
      tauto

theorem insortBy_pairwise (le : α → α → Bool)
    (htot : ∀ a b, le a b || le b a)
    (htr : ∀ a b c, le a b = true → le b c = true → le a c = true)
    (x : α) (l : List α) (h : l.Pairwise (le · · = true)) :
    (insortBy le x l).Pairwise (le · · = true) := by
  induction l with
  | nil => simp [insortBy]
  | cons y ys ih =>
    rcases List.pairwise_cons.mp h with ⟨hy, hys⟩
    by_cases hxy : le x y
    · rw [insortBy, if_pos hxy]
      refine List.pairwise_cons.mpr ⟨?_, h⟩
      intro z hz
      rcases List.mem_cons.mp hz with rfl | hz'
      · exact hxy
      · exact htr x y z hxy (hy z hz')
    · rw [insortBy, if_neg hxy]
      refine List.pairwise_cons.mpr ⟨?_, ih hys⟩
      intro z hz
      rcases (mem_insortBy le x ys z).mp hz with rfl | hz
      · have := htot z y
        simp [hxy] at this
        exact this
      · exact hy z hz

theorem sortBy_pairwise (le : α → α → Bool)
    (htot : ∀ a b, le a b || le b a)
    (htr : ∀ a b c, le a b = true → le b c = true → le a c = true)
    (l : List α) : (sortBy le l).Pairwise (le · · = true) := by
  induction l with
  | nil => simp [sortBy]
  | cons x xs ih => exact insortBy_pairwise le htot htr x _ ih

theorem insortBy_perm (le : α → α → Bool) (x : α) (l : List α) :
    (insortBy le x l).Perm (x :: l) := by
  induction l with
  | nil => simp [insortBy]
  | cons y ys ih =>
    by_cases hxy : le x y
    · rw [insortBy, if_pos hxy]
    · rw [insortBy, if_neg hxy]
      exact (List.Perm.cons y ih).trans (List.Perm.swap x y ys)

theorem sortBy_perm (le : α → α → Bool) (l : List α) : (sortBy le l).Perm l := by
  induction l with
  | nil => simp [sortBy]
  | cons x xs ih =>
    exact (insortBy_perm le x (sortBy le xs)).trans (List.Perm.cons x ih)

theorem filter_insortBy (le : α → α → Bool) (p : α → Bool)
    (hmut : ∀ a b, p a = true → p b = true → le a b = true)
    (x : α) (l : List α) :
    (insortBy le x l).filter p =
      if p x then x :: l.filter p else l.filter p := by
  induction l with
  | nil =>
    by_cases hx : p x <;> simp [insortBy, hx]
  | cons y ys ih =>
    by_cases hxy : le x y
    · by_cases hx : p x <;> simp [insortBy, hxy, hx, List.filter]
    · rw [insortBy, if_neg hxy]
      by_cases hy : p y
      · by_cases hx : p x
        · exact absurd (hmut x y hx hy) hxy
        · simp [List.filter, hy, ih, hx]
      · simp [List.filter, hy, ih]

theorem filter_sortBy (le : α → α → Bool) (p : α → Bool)
    (hmut : ∀ a b, p a = true → p b = true → le a b = true)
    (l : List α) : (sortBy le l).filter p = l.filter p := by
  induction l with
  | nil => simp [sortBy]
  | cons x xs ih =>
    show (insortBy le x (sortBy le xs)).filter p = _
    rw [filter_insortBy le p hmut]
    by_cases hx : p x <;> simp [List.filter, hx, ih]

theorem sorted_perm_eq (le : α → α → Bool) :
    ∀ l₁ l₂ : List α, l₁.Perm l₂ →
    l₁.Pairwise (le · · = true) → l₂.Pairwise (le · · = true) →
    (∀ a ∈ l₁, ∀ b ∈ l₁, le a b = true → le b a = true → a = b) →
    l₁ = l₂
  | [], [], _, _, _, _ => rfl
  | [], b :: l₂, h, _, _, _ => absurd (h.symm.subset (List.mem_cons_self b l₂)) (List.not_mem_nil b)
  | a :: l₁, [], h, _, _, _ => absurd (h.subset (List.mem_cons_self a l₁)) (List.not_mem_nil a)
  | a :: l₁, b :: l₂, h, s₁, s₂, anti => by
    rcases List.pairwise_cons.mp s₁ with ⟨ha, hl₁⟩
    rcases List.pairwise_cons.mp s₂ with ⟨hb, hl₂⟩
    have hab : a = b := by
      have hbmem : b ∈ a :: l₁ := h.symm.subset (List.mem_cons_self b l₂)
      have hamem : a ∈ b :: l₂ := h.subset (List.mem_cons_self a l₁)
      rcases List.mem_cons.mp hbmem with rfl | hbl₁
      · rfl
      · rcases List.mem_cons.mp hamem with rfl | hal₂
        · rfl
        · exact anti a (List.mem_cons_self a l₁) b hbmem (ha b hbl₁) (hb a hal₂)
    subst hab
    have htail : l₁.Perm l₂ := List.Perm.cons_inv h
    have : l₁ = l₂ :=
      sorted_perm_eq le l₁ l₂ htail hl₁ hl₂ fun x hx y hy =>
        anti x (List.mem_cons_of_mem a hx) y (List.mem_cons_of_mem a hy)
    rw [this]

/-! ### Comparator laws -/

theorem natCmp_swap (m n : Nat) : natCmp m n = (natCmp n m).swap := by
  unfold natCmp
  rcases Nat.lt_trichotomy m n with h | h | h
  · rw [if_pos h, if_neg (by omega), if_neg (by omega)]
    rfl
  · subst h
    rw [if_neg (by omega), if_pos rfl]
    rfl
  · rw [if_neg (by omega), if_neg (by omega), if_pos h]
    rfl

theorem natCmp_eqv (m n : Nat) : natCmp m n = .eq → m = n := by
  unfold natCmp
  split_ifs with h1 h2
  · exact fun hh => absurd hh (by decide)
  · exact fun _ => h2
  · exact fun hh => absurd hh (by decide)

theorem natCmp_lt_trans {a b c : Nat} :
    natCmp a b = .lt → natCmp b c = .lt → natCmp a c = .lt := by
  intro h1 h2
  unfold natCmp at h1 h2 ⊢
  split_ifs at h1 h2 ⊢ <;>
    first
      | rfl
      | exact absurd h1 (by decide)
      | exact absurd h2 (by decide)
      | (exfalso; omega)

theorem charCmp_swap (a b : Char) : charCmp a b = (charCmp b a).swap :=
  natCmp_swap _ _

theorem charCmp_eqv (a b : Char) : charCmp a b = .eq → a = b := by
  intro h
  apply Char.eq_of_val_eq
  exact UInt32.toNat.inj (natCmp_eqv _ _ h)

theorem charCmp_lt_trans {a b c : Char} :
    charCmp a b = .lt → charCmp b c = .lt → charCmp a c = .lt :=
  natCmp_lt_trans

theorem lexCmp_swap (f : α → α → Ordering) (hsw : ∀ a b, f a b = (f b a).swap) :
    ∀ l₁ l₂ : List α, lexCmp f l₁ l₂ = (lexCmp f l₂ l₁).swap
  | [], [] => rfl
  | [], _ :: _ => rfl
  | _ :: _, [] => rfl
  | a :: as, b :: bs => by
    rw [lexCmp, lexCmp, hsw a b]
    rcases hfb : f b a with _ | _ | _ <;>
      simp [Ordering.swap, lexCmp_swap f hsw as bs]

theorem lexCmp_eqv (f : α → α → Ordering) (heq : ∀ a b, f a b = .eq → a = b) :
    ∀ l₁ l₂ : List α, lexCmp f l₁ l₂ = .eq → l₁ = l₂
  | [], [] => fun _ => rfl
  | [], _ :: _ => by simp [lexCmp]
  | _ :: _, [] => by simp [lexCmp]
  | a :: as, b :: bs => by
    rw [lexCmp]
    rcases hf : f a b with _ | _ | _ <;> simp
    intro h
    exact ⟨heq a b hf, lexCmp_eqv f heq as bs h⟩

theorem lexCmp_lt_trans (f : α → α → Ordering)
    (heq : ∀ a b, f a b = .eq → a = b)
    (htr : ∀ a b c, f a b = .lt → f b c = .lt → f a c = .lt) :
    ∀ l₁ l₂ l₃ : List α, lexCmp f l₁ l₂ = .lt → lexCmp f l₂ l₃ = .lt →
      lexCmp f l₁ l₃ = .lt
  | [], [], _ => fun h1 _ => absurd (show Ordering.eq = Ordering.lt from h1) (by decide)
  | _ :: _, [], _ => fun h1 _ => absurd (show Ordering.gt = Ordering.lt from h1) (by decide)
  | [], _ :: _, [] => fun _ h2 => absurd (show Ordering.gt = Ordering.lt from h2) (by decide)
  | [], _ :: _, _ :: _ => fun _ _ => rfl
  | _ :: _, _ :: _, [] => fun _ h2 => absurd (show Ordering.gt = Ordering.lt from h2) (by decide)
  | a :: as, b :: bs, c :: cs => by
    intro h12 h23
    rw [lexCmp] at h12 h23 ⊢
    rcases hab : f a b with _ | _ | _ <;> rw [hab] at h12
    · rcases hbc : f b c with _ | _ | _ <;> rw [hbc] at h23
      · rw [htr a b c hab hbc]
      · have := heq b c hbc
        subst this
        rw [hab]
      · exact absurd (show Ordering.gt = Ordering.lt from h23) (by decide)
    · have := heq a b hab
      subst this
      have h12l : lexCmp f as bs = .lt := h12
      rcases hbc : f a c with _ | _ | _ <;> rw [hbc] at h23
      · have h23l : lexCmp f bs cs = .lt := h23
        show lexCmp f as cs = Ordering.lt
        exact lexCmp_lt_trans f heq htr as bs cs h12l h23l
      · exact absurd (show Ordering.gt = Ordering.lt from h23) (by decide)
    · exact absurd (show Ordering.gt = Ordering.lt from h12) (by decide)

theorem chunkCmp_swap (a b : NatChunk) : chunkCmp a b = (chunkCmp b a).swap := by
  cases a <;> cases b
  · exact lexCmp_swap charCmp charCmp_swap _ _
  · rfl
  · rfl
  · exact natCmp_swap _ _

theorem chunkCmp_eqv (a b : NatChunk) : chunkCmp a b = .eq → a = b := by
  cases a <;> cases b <;> simp [chunkCmp]
  · exact lexCmp_eqv charCmp charCmp_eqv _ _
  · exact natCmp_eqv _ _

theorem chunkCmp_lt_trans {a b c : NatChunk} :
    chunkCmp a b = .lt → chunkCmp b c = .lt → chunkCmp a c = .lt := by
  cases a <;> cases b <;> cases c <;> simp [chunkCmp]
  · exact lexCmp_lt_trans charCmp charCmp_eqv (fun _ _ _ => charCmp_lt_trans) _ _ _
  · exact fun _ _ => natCmp_lt_trans ‹_› ‹_›

theorem natLe_total (a b : List Char) : natLe a b || natLe b a := by
  unfold natLe natCmpStr
  by_cases h : lexCmp chunkCmp (natkey a) (natkey b) = Ordering.gt
  · have hs := lexCmp_swap chunkCmp chunkCmp_swap (natkey a) (natkey b)
    rw [h] at hs
    have hba : lexCmp chunkCmp (natkey b) (natkey a) ≠ Ordering.gt := by
      intro hh
      rw [hh] at hs
      exact absurd hs (by decide)
    simp [hba]
  · simp [h]

theorem natLe_trans {a b c : List Char} :
    natLe a b = true → natLe b c = true → natLe a c = true := by
  unfold natLe natCmpStr
  simp only [ne_eq, decide_eq_true_eq]
  intro h1 h2 h3
  rcases hab : lexCmp chunkCmp (natkey a) (natkey b) with _ | _ | _
  · rcases hbc : lexCmp chunkCmp (natkey b) (natkey c) with _ | _ | _
    · exact absurd (lexCmp_lt_trans chunkCmp chunkCmp_eqv
        (fun _ _ _ => chunkCmp_lt_trans) _ _ _ hab hbc) (by rw [h3]; decide)
    · rw [lexCmp_eqv chunkCmp chunkCmp_eqv _ _ hbc] at hab
      exact absurd hab (by rw [h3]; decide)
    · exact h2 hbc
  · rw [lexCmp_eqv chunkCmp chunkCmp_eqv _ _ hab] at h3
    exact h2 h3
  · exact h1 hab

theorem natLe_antisymm_key {a b : List Char} :
    natLe a b = true → natLe b a = true → natkey a = natkey b := by
  unfold natLe natCmpStr
  simp only [ne_eq, decide_eq_true_eq]
  intro h1 h2
  rcases hab : lexCmp chunkCmp (natkey a) (natkey b) with _ | _ | _
  · have hs := lexCmp_swap chunkCmp chunkCmp_swap (natkey a) (natkey b)
    rw [hab] at hs
    have hba : lexCmp chunkCmp (natkey b) (natkey a) = Ordering.gt := by
      rcases hx : lexCmp chunkCmp (natkey b) (natkey a) with _ | _ | _ <;>
        rw [hx] at hs <;> first | rfl | exact absurd hs (by decide)
    exact absurd hba h2
  · exact lexCmp_eqv chunkCmp chunkCmp_eqv _ _ hab
  · exact absurd hab h1

/-! ### C7 and C10: sizes and the par2 percentage -/

theorem foldl_add_sum {α : Type} (g : α → Int) :
    ∀ (l : List α) (acc : Int), l.foldl (fun a x => a + g x) acc = acc + (l.map g).sum
  | [], acc => by simp
  | x :: xs, acc => by
    rw [List.foldl_cons, foldl_add_sum g xs (acc + g x)]
    simp [List.map_cons, List.sum_cons]
    ring

/-- C7: for every document model `d`, the size of `d` is the sum of its
files' sizes (Python's `sum(...)` accumulating left over the files), and
for every file `f`, the size of `f` is the sum of its segments' sizes. -/
theorem c7_size_is_sum_of_parts :
    (∀ d : Nzb, d.size = d.files.foldl (fun a f => a + f.size) 0) ∧
    (∀ f : File, f.size = f.segments.foldl (fun a s => a + s.size) 0) := by
  constructor
  · intro d
    rw [foldl_add_sum File.size d.files 0]
    simp [Nzb.size]
  · intro f
    rw [foldl_add_sum Segment.size f.segments 0]
    simp [File.size]

/-- C10: accessing `par2_percentage` on a document whose total size is zero
(in particular when every segment has size 0) raises `ZeroDivisionError`
instead of returning a number; with a positive total size it returns the
par2 files' total size divided by the total size, times 100. -/
theorem c10_par2_percentage_division_by_zero (d : Nzb) :
    ((∀ f ∈ d.files, ∀ s ∈ f.segments, s.size = 0) →
      d.size = 0 ∧ d.par2_percentage = .error "ZeroDivisionError: division by zero") ∧
    (0 < d.size →
      d.par2_percentage = .ok ((d.par2_size : Rat) / (d.size : Rat) * 100)) := by
  constructor
  · intro h
    have hz : d.size = 0 := by
      apply List.sum_eq_zero
      intro x hx
      rcases List.mem_map.mp hx with ⟨f, hf, rfl⟩
      apply List.sum_eq_zero
      intro y hy
      rcases List.mem_map.mp hy with ⟨seg, hseg, rfl⟩
      exact h f hf seg hseg
    exact ⟨hz, by rw [Nzb.par2_percentage, if_pos hz]⟩
  · intro h
    rw [Nzb.par2_percentage, if_neg (by omega)]

/-- Witness for C10 at concrete documents: the zero-size case errors, the
positive case returns the quotient. -/
theorem c10_par2_percentage_witness :
    (exDocZero.size = 0 ∧
      exDocZero.par2_percentage = .error "ZeroDivisionError: division by zero") ∧
    exDocPar2.par2_percentage = .ok 25 := by
  refine ⟨(c10_par2_percentage_division_by_zero exDocZero).1 ?_, ?_⟩
  · intro f hf s hs
    simp [exDocZero] at hf
    subst hf
    simp at hs
    rw [hs]
  · have hps : exDocPar2.par2_size = 25 := by decide
    have hsz : exDocPar2.size = 100 := by decide
    rw [(c10_par2_percentage_division_by_zero exDocPar2).2 (by decide), hps, hsz]
    congr 1
    norm_num

/-! ### C1: broken segment entries are dropped; none left is fatal -/

/-- C3: for a `file` entry whose groups and segments parse, a missing
`poster`, `date` or `subject` attribute aborts the parse with the
`InvalidNzbError` naming exactly that attribute (`date` for the date
attribute); a `date` present but not parseable as a Unix-timestamp integer
aborts with the same error naming `date`; and a parsed date yields a
UTC instant (offset zero). -/
theorem c3_file_attribute_errors (f : RawFile) (gl : List String) (segs : List Segment)
    (hg : groupList f.groups = some gl) (hs : parse_segments f.segments = .ok segs) :
    (f.poster = none → parseOneFile f = .error (attrErrMsg "poster")) ∧
    (∀ p, f.poster = some p → f.date = none →
      parseOneFile f = .error (attrErrMsg "date")) ∧
    (∀ p ds, f.poster = some p → f.date = some ds → pyInt ds = none →
      parseOneFile f = .error (attrErrMsg "date")) ∧
    (∀ p ds ts, f.poster = some p → f.date = some ds → pyInt ds = some ts →
      f.subject = none → parseOneFile f = .error (attrErrMsg "subject")) ∧
    (∀ p ds ts sub, f.poster = some p → f.date = some ds → pyInt ds = some ts →
      f.subject = some sub →
      parseOneFile f = .ok { poster := p, posted_at := epochToUTC ts, subject := sub,
                             groups := sortBy natLeS gl, segments := segs } ∧
        (epochToUTC ts).offsetMinutes = 0) := by
  refine ⟨?_, ?_, ?_, ?_, ?_⟩
  · intro hp
    (simp [parseOneFile, hg, hs, Except.bind, convertFile, hp]) <;> rfl
  · intro p hp hd
    (simp [parseOneFile, hg, hs, Except.bind, convertFile, hp, hd]) <;> rfl
  · intro p ds hp hd hint
    (simp [parseOneFile, hg, hs, Except.bind, convertFile, hp, hd, hint]) <;> rfl
  · intro p ds ts hp hd hint hsub
    (simp [parseOneFile, hg, hs, Except.bind, convertFile, hp, hd, hint, hsub]) <;> rfl
  · intro p ds ts sub hp hd hint hsub
    refine ⟨by (simp [parseOneFile, hg, hs, Except.bind, convertFile, hp, hd, hint, hsub]) <;> rfl, rfl⟩

/-- Witness for C3: concrete file entries with one valid group and one
valid segment, each missing or corrupting one attribute. -/
theorem c3_file_attribute_errors_witness :
    parseOneFile (mkRawFile none (some "1071674882") (some "s")) =
      .error (attrErrMsg "poster") ∧
    parseOneFile (mkRawFile (some "p") none (some "s")) =
      .error (attrErrMsg "date") ∧
    parseOneFile (mkRawFile (some "p") (some "not a date") (some "s")) =
      .error (attrErrMsg "date") ∧
    parseOneFile (mkRawFile (some "p") (some "1071674882") none) =
      .error (attrErrMsg "subject") ∧
    (parseOneFile (mkRawFile (some "p") (some "1071674882") (some "s")) =
      .ok { poster := "p", posted_at := epochToUTC 1071674882, subject := "s",
            groups := ["g"], segments := [exSeg] } ∧
      (epochToUTC 1071674882).offsetMinutes = 0) := by
  refine ⟨?_, ?_, ?_, ?_, ?_⟩
  · exact (c3_file_attribute_errors (mkRawFile none (some "1071674882") (some "s"))
      ["g"] [exSeg] rfl rfl).1 rfl
  · exact (c3_file_attribute_errors (mkRawFile (some "p") none (some "s"))
      ["g"] [exSeg] rfl rfl).2.1 "p" rfl rfl
  · exact (c3_file_attribute_errors (mkRawFile (some "p") (some "not a date") (some "s"))
      ["g"] [exSeg] rfl rfl).2.2.1 "p" "not a date" rfl rfl (by decide)
  · exact (c3_file_attribute_errors (mkRawFile (some "p") (some "1071674882") none)
      ["g"] [exSeg] rfl rfl).2.2.2.1 "p" "1071674882" 1071674882 rfl rfl
      (by decide) rfl
  · exact (c3_file_attribute_errors (mkRawFile (some "p") (some "1071674882") (some "s"))
      ["g"] [exSeg] rfl rfl).2.2.2.2 "p" "1071674882" 1071674882 "s" rfl rfl
      (by decide) rfl

/-! ### C9: the rar-family classifier -/

theorem anySuffix_iff (p : List Char → Bool) :
    ∀ cs : List Char, anySuffix p cs = true ↔ ∃ pre suf, cs = pre ++ suf ∧ p suf = true
  | [] => by
    rw [anySuffix]
    constructor
    · exact fun h => ⟨[], [], rfl, h⟩
    · rintro ⟨pre, suf, h, hp⟩
      rcases List.append_eq_nil.mp h.symm with ⟨rfl, rfl⟩
      exact hp
  | c :: rest => by
    rw [anySuffix, Bool.or_eq_true, anySuffix_iff p rest]
    constructor
    · rintro (h | ⟨pre, suf, rfl, hp⟩)
      · exact ⟨[], c :: rest, rfl, h⟩
      · exact ⟨c :: pre, suf, rfl, hp⟩
    · rintro ⟨pre, suf, h, hp⟩
      rcases pre with _ | ⟨x, pre⟩
      · left
        simp only [List.nil_append] at h
        rw [← h] at hp
        exact hp
      · right
        rcases List.cons_eq_cons.mp h with ⟨rfl, rfl⟩
        exact ⟨pre, suf, rfl, hp⟩

theorem rarAlt_iff (suf : List Char) :
    rarAlt suf = true ↔
      ∃ c1 c2 c3, suf = ['.', c1, c2, c3] ∧
        ((asciiLower c1 = 'r' ∧ asciiLower c2 = 'a' ∧ asciiLower c3 = 'r') ∨
         ((asciiLower c1 = 'r' ∨ asciiLower c1 = 's' ∨ asciiLower c1 = 't' ∨
             asciiLower c1 = 'u' ∨ asciiLower c1 = 'v') ∧
           isDig c2 = true ∧ isDig c3 = true)) := by
  rcases suf with _ | ⟨a, _ | ⟨b, _ | ⟨c, _ | ⟨d, _ | ⟨e, tail⟩⟩⟩⟩⟩
  · simp [rarAlt]
  · simp [rarAlt]
  · simp [rarAlt]
  · simp [rarAlt]
  · by_cases ha : a = '.'
    · subst ha
      constructor
      · intro h
        refine ⟨b, c, d, rfl, ?_⟩
        simp [rarAlt] at h
        tauto
      · rintro ⟨c1, c2, c3, heq, hcond⟩
        simp only [List.cons.injEq, and_true] at heq
        obtain ⟨-, rfl, rfl, rfl⟩ := heq
        simp [rarAlt]
        tauto
    · constructor
      · intro h
        exfalso
        unfold rarAlt at h
        split at h
        · next c1 c2 c3 heq2 =>
          exact ha (List.cons_eq_cons.mp heq2).1
        · exact absurd h (by decide)
      · rintro ⟨c1, c2, c3, heq, -⟩
        exact absurd (List.cons_eq_cons.mp heq).1 ha
  · simp [rarAlt]

/-- C9: `name_is_rar` returns true iff the filename case-insensitively ends
with `.rar`, or ends with `.r`/`.s`/`.t`/`.u`/`.v` followed by exactly two
digits; the empty filename returns false. -/
theorem c9_name_is_rar_iff (filename : String) :
    name_is_rar filename = true ↔
      (filename ≠ "" ∧
        ∃ pre c1 c2 c3, filename.data = pre ++ ['.', c1, c2, c3] ∧
          ((asciiLower c1 = 'r' ∧ asciiLower c2 = 'a' ∧ asciiLower c3 = 'r') ∨
           ((asciiLower c1 = 'r' ∨ asciiLower c1 = 's' ∨ asciiLower c1 = 't' ∨
               asciiLower c1 = 'u' ∨ asciiLower c1 = 'v') ∧
             isDig c2 = true ∧ isDig c3 = true))) := by
  unfold name_is_rar
  by_cases hf : filename = ""
  · simp [hf]
  · rw [if_neg hf, anySuffix_iff]
    constructor
    · rintro ⟨pre, suf, heq, hp⟩
      rcases (rarAlt_iff suf).mp hp with ⟨c1, c2, c3, rfl, hcond⟩
      exact ⟨hf, pre, c1, c2, c3, heq, hcond⟩
    · rintro ⟨-, pre, c1, c2, c3, heq, hcond⟩
      exact ⟨pre, ['.', c1, c2, c3], heq, (rarAlt_iff _).mpr ⟨c1, c2, c3, rfl, hcond⟩⟩

/-- Witness for C9: `x.r01` is rar-family (via the characterization),
`x.par` is not. -/
theorem c9_name_is_rar_witness :
    name_is_rar "x.r01" = true ∧ name_is_rar "x.par" = false := by
  constructor
  · exact (c9_name_is_rar_iff "x.r01").mpr
      ⟨by decide, ['x'], 'r', '0', '1', by decide, Or.inr (by decide)⟩
  · decide

/-! ### C2: invariants of a successfully parsed document -/

theorem parse_segments_ok_inv {sf : SegmentsField} {segs : List Segment}
    (h : parse_segments sf = .ok segs) :
    segs ≠ [] ∧ segs.Pairwise (fun a b => decide (a.number ≤ b.number) = true) := by
  rcases sf with _ | _ | fields
  · exact absurd h (by simp [parse_segments])
  · exact absurd h (by simp [parse_segments])
  · rw [parse_segments] at h
    by_cases he : (fields.filterMap parseSegmentField).isEmpty
    · rw [if_pos he] at h
      exact absurd h (by simp)
    · rw [if_neg he] at h
      have hs := Except.ok.inj h
      constructor
      · intro hnil
        apply he
        rw [List.isEmpty_iff]
        have hperm := sortBy_perm (fun a b : Segment => decide (a.number ≤ b.number))
          (fields.filterMap parseSegmentField)
        rw [hs, hnil] at hperm
        exact hperm.symm.eq_nil
      · rw [← hs]
        exact sortBy_pairwise _ (fun a b => by simp [Int.le_total])
          (fun a b c h1 h2 => by
            simp only [decide_eq_true_eq] at h1 h2 ⊢
            omega) _

theorem except_error_ne_ok {ε α : Type} (e : ε) (a : α) :
    (Except.error e : Except ε α) ≠ Except.ok a := fun h => Except.noConfusion h

theorem parseOneFile_ok_inv {f : RawFile} {file : File}
    (h : parseOneFile f = .ok file) :
    ∃ gl segs, groupList f.groups = some gl ∧ parse_segments f.segments = .ok segs ∧
      file.groups = sortBy natLeS gl ∧ file.segments = segs := by
  rw [parseOneFile] at h
  rcases hg : groupList f.groups with _ | gl <;> rw [hg] at h
  · exact absurd h (except_error_ne_ok _ _)
  · rcases hs : parse_segments f.segments with e | segs <;> rw [hs] at h
    · exact absurd h (except_error_ne_ok _ _)
    · refine ⟨gl, segs, rfl, rfl, ?_⟩
      have hb : convertFile f.poster f.date f.subject (sortBy natLeS gl) segs = .ok file := h
      rcases hp : f.poster with _ | p
      · simp [convertFile, hp] at hb
      · rcases hd : f.date with _ | ds
        · simp [convertFile, hp, hd] at hb
        · rcases hi : pyInt ds with _ | ts
          · simp [convertFile, hp, hd, hi] at hb
          · rcases hsub : f.subject with _ | sub
            · simp [convertFile, hp, hd, hi, hsub] at hb
            · simp only [convertFile, hp, hd, hi, hsub] at hb
              have := Except.ok.inj hb
              rw [← this]
              exact ⟨rfl, rfl⟩

theorem convertAll_ok_mem :
    ∀ {fs : List RawFile} {l : List File}, convertAll fs = .ok l →
      ∀ x ∈ l, ∃ f ∈ fs, parseOneFile f = .ok x := by
  intro fs
  induction fs with
  | nil =>
    intro l h x hx
    rw [convertAll] at h
    have := Except.ok.inj h
    rw [← this] at hx
    exact absurd hx (List.not_mem_nil x)
  | cons f fs ih =>
    intro l h x hx
    rw [convertAll] at h
    rcases h1 : parseOneFile f with e | y
    · rw [h1] at h
      exact absurd h (except_error_ne_ok _ _)
    · rw [h1] at h
      rcases h2 : convertAll fs with e | ys
      · rw [h2] at h
        exact absurd h (except_error_ne_ok _ _)
      · rw [h2] at h
        have : y :: ys = l := Except.ok.inj h
        rw [← this] at hx
        rcases List.mem_cons.mp hx with rfl | hx'
        · exact ⟨f, List.mem_cons_self f fs, h1⟩
        · rcases ih h2 x hx' with ⟨g, hg, hgp⟩
          exact ⟨g, List.mem_cons_of_mem f hg, hgp⟩

theorem convertAll_perm {fs₁ fs₂ : List RawFile} (hperm : fs₁.Perm fs₂) :
    ∀ {l₁ : List File}, convertAll fs₁ = .ok l₁ →
      ∃ l₂, convertAll fs₂ = .ok l₂ ∧ l₁.Perm l₂ := by
  induction hperm with
  | nil =>
    intro l₁ h
    exact ⟨l₁, h, List.Perm.refl l₁⟩
  | cons x p ih =>
    rename_i t₁ t₂
    intro l₁ h
    rw [convertAll] at h
    rcases h1 : parseOneFile x with e | y <;> rw [h1] at h
    · exact absurd h (except_error_ne_ok _ _)
    · rcases h2 : convertAll t₁ with e | ys <;> rw [h2] at h
      · exact absurd h (except_error_ne_ok _ _)
      · rcases ih h2 with ⟨l₂, hl₂, hp⟩
        refine ⟨y :: l₂, ?_, ?_⟩
        · rw [convertAll, h1, hl₂]
          rfl
        · rw [← Except.ok.inj h]
          exact List.Perm.cons y hp
  | swap x y t =>
    intro l₁ h
    rw [convertAll] at h
    rcases h1 : parseOneFile y with e | py <;> rw [h1] at h
    · exact absurd h (except_error_ne_ok _ _)
    · rcases h2 : convertAll (x :: t) with e | ys <;> rw [h2] at h
      · exact absurd h (except_error_ne_ok _ _)
      · rw [convertAll] at h2
        rcases h3 : parseOneFile x with e | px <;> rw [h3] at h2
        · exact absurd h2 (except_error_ne_ok _ _)
        · rcases h4 : convertAll t with e | ts <;> rw [h4] at h2
          · exact absurd h2 (except_error_ne_ok _ _)
          · refine ⟨px :: py :: ts, ?_, ?_⟩
            · simp only [convertAll, h1, h3, h4]
              rfl
            · rw [← Except.ok.inj h, ← Except.ok.inj h2]
              exact List.Perm.swap px py ts
  | trans p1 p2 ih1 ih2 =>
    intro l₁ h
    rcases ih1 h with ⟨lm, hlm, hp1⟩
    rcases ih2 hlm with ⟨l₂, hl₂, hp2⟩
    exact ⟨l₂, hl₂, hp1.trans hp2⟩

theorem parse_files_ok_inv {fs : List RawFile} {files : List File}
    (h : parse_files (some fs) = .ok files) :
    ∃ filelist, convertAll fs = .ok filelist ∧
      files = sortBy (fun a b => natLeS a.subject b.subject) filelist := by
  rw [parse_files] at h
  rcases h1 : convertAll fs with e | filelist <;> rw [h1] at h
  · exact absurd h (except_error_ne_ok _ _)
  · have h2 : (if filelist.isEmpty = true then (Except.error fileErrMsg : Except String (List File))
        else Except.ok (sortBy (fun a b => natLeS a.subject b.subject) filelist)) =
        Except.ok files := h
    by_cases he : filelist.isEmpty
    · rw [if_pos he] at h2
      exact absurd h2 (except_error_ne_ok _ _)
    · rw [if_neg he] at h2
      exact ⟨filelist, rfl, (Except.ok.inj h2).symm⟩

/-- C2 (amended): in a successfully parsed document every file has
non-empty groups sorted ascending in natural-sort order and non-empty
segments sorted ascending by number, and the files are sorted by subject
ascending in natural-sort order; the output is independent of the source
order whenever no two distinct result files tie on the natural-sort key of
their subject. -/
theorem c2_parse_files_invariants (fs : List RawFile) (files : List File)
    (hwf : groupsWF fs) (h : parse_files (some fs) = .ok files) :
    (∀ f ∈ files, f.groups ≠ [] ∧ f.groups.Pairwise (natLeS · · = true) ∧
      f.segments ≠ [] ∧ f.segments.Pairwise (fun a b : Segment => a.number ≤ b.number)) ∧
    files.Pairwise (fun a b => natLeS a.subject b.subject = true) ∧
    (∀ fs₂ files₂, fs.Perm fs₂ → parse_files (some fs₂) = .ok files₂ →
      subjKeysInj files → files = files₂) := by
  have hsubj_tot : ∀ a b : File, natLeS a.subject b.subject || natLeS b.subject a.subject :=
    fun a b => natLe_total _ _
  have hsubj_tr : ∀ a b c : File, natLeS a.subject b.subject = true →
      natLeS b.subject c.subject = true → natLeS a.subject c.subject = true :=
    fun _ _ _ => natLe_trans
  obtain ⟨filelist, hconv, hfiles⟩ := parse_files_ok_inv h
  refine ⟨?_, ?_, ?_⟩
  · intro f hf
    have hmem : f ∈ filelist := by
      have := sortBy_perm (fun a b : File => natLeS a.subject b.subject) filelist
      rw [← hfiles] at this
      exact this.subset hf
    obtain ⟨raw, hraw, hparse⟩ := convertAll_ok_mem hconv f hmem
    obtain ⟨gl, segs, hg, hs, hgr, hseg⟩ := parseOneFile_ok_inv hparse
    have hgl : gl ≠ [] := by
      rcases hgf : raw.groups with _ | g | gs
      · rw [hgf] at hg
        exact Option.noConfusion hg
      · rw [hgf] at hg
        rw [← Option.some.inj hg]
        simp
      · rw [hgf] at hg
        rw [← Option.some.inj hg]
        exact hwf raw hraw gs hgf
    obtain ⟨hsne, hspw⟩ := parse_segments_ok_inv hs
    refine ⟨?_, ?_, by rw [hseg]; exact hsne, ?_⟩
    · rw [hgr]
      intro hnil
      apply hgl
      have := sortBy_perm natLeS gl
      rw [hnil] at this
      exact this.symm.eq_nil
    · rw [hgr]
      exact sortBy_pairwise natLeS (fun a b => natLe_total _ _)
        (fun a b c => natLe_trans) gl
    · rw [hseg]
      exact hspw.imp fun hab => by simpa using hab
  · rw [hfiles]
    exact sortBy_pairwise _ hsubj_tot (fun a b c => hsubj_tr a b c) filelist
  · intro fs₂ files₂ hperm h₂ hinj
    obtain ⟨filelist₂, hconv₂, hfiles₂⟩ := parse_files_ok_inv h₂
    obtain ⟨l₂, hl₂, hp⟩ := convertAll_perm hperm hconv
    have hll : l₂ = filelist₂ := Except.ok.inj (hl₂.symm.trans hconv₂)
    rw [hll] at hp
    have hps : files.Perm files₂ := by
      rw [hfiles, hfiles₂]
      exact ((sortBy_perm _ filelist).trans hp).trans (sortBy_perm _ filelist₂).symm
    refine sorted_perm_eq (fun a b : File => natLeS a.subject b.subject) files files₂ hps ?_ ?_ ?_
    · rw [hfiles]
      exact sortBy_pairwise _ hsubj_tot (fun a b c => hsubj_tr a b c) filelist
    · rw [hfiles₂]
      exact sortBy_pairwise _ hsubj_tot (fun a b c => hsubj_tr a b c) filelist₂
    · intro a ha b hb hab hba
      exact hinj a ha b hb (natLe_antisymm_key hab hba)

/-- Counterexample for C2 as stated: the parsed files are in natural-sort
order of subject, which at subjects `file10`/`file2` is not lexicographic
ascending (`file2` sorts first although `file10 < file2` lexicographically),
and at two files with equal subjects the output does depend on the source
order. -/
theorem c2_counterexample :
    parse_files (some [mkRawSubj "file10" "p1", mkRawSubj "file2" "p2"]) =
      .ok [mkFileS "file2" "p2", mkFileS "file10" "p1"] ∧
    lexLeS (mkFileS "file2" "p2").subject (mkFileS "file10" "p1").subject = false ∧
    parse_files (some [mkRawSubj "s" "p1", mkRawSubj "s" "p2"]) =
      .ok [mkFileS "s" "p1", mkFileS "s" "p2"] ∧
    parse_files (some [mkRawSubj "s" "p2", mkRawSubj "s" "p1"]) =
      .ok [mkFileS "s" "p2", mkFileS "s" "p1"] ∧
    mkFileS "s" "p1" ≠ mkFileS "s" "p2" :=
  ⟨rfl, by decide, rfl, rfl, by decide⟩

/-- Witness for C2 at a concrete two-file document with subjects
`file10`/`file2`. -/
theorem c2_parse_files_invariants_witness :
    ([mkFileS "file2" "p2", mkFileS "file10" "p1"] :
        List File).Pairwise (fun a b => natLeS a.subject b.subject = true) ∧
    (mkFileS "file2" "p2").groups ≠ [] := by
  have h := c2_parse_files_invariants
    [mkRawSubj "file10" "p1", mkRawSubj "file2" "p2"]
    [mkFileS "file2" "p2", mkFileS "file10" "p1"]
    (by
      intro f hf gs hgs
      rcases List.mem_cons.mp hf with rfl | hf2
      · exact absurd hgs (by simp [mkRawSubj])
      · rcases List.mem_cons.mp hf2 with rfl | hf3
        · exact absurd hgs (by simp [mkRawSubj])
        · exact absurd hf3 (List.not_mem_nil f))
    rfl
  exact ⟨h.2.1, (h.1 (mkFileS "file2" "p2") (by simp)).1⟩
